import Mathlib

/-!
Verification of the Koch curve / snowflake generator (`koch.py`).

The program works over 2D points (pairs of reals).  Its pieces:

* `third a b` — the subdivision rule: five points replacing the segment
  from `a` to `b` by the Koch "bump" (source: `third`, using the rotation
  matrix `R = [[0,-1],[1,0]]`).
* `conver L` — splits a polyline into the list of x-coordinates and the
  list of y-coordinates (source: `conver`).
* `koch n` / `flake n` — iterate a subdivision pass `n` times over a fixed
  base polyline; each pass replaces every segment by the first four points
  of `third` applied to its endpoints and then appends a hard-coded closing
  point (`[3,0]` for `koch`, `[0,0]` for `flake`).  In the source the loop
  runs `for i in range(0, n)`, which performs `max n 0` iterations, so the
  generation count is embedded as an integer and `Int.toNat` gives the
  iteration count.
-/

noncomputable section

/-- A 2D point, real-valued coordinates. -/
abbrev Pt : Type := ℝ × ℝ

/-- The rotation matrix `R = [[0,-1],[1,0]]` of the source applied to a
vector: `R.dot(v)` componentwise. -/
def R_dot (v : Pt) : Pt := (0 * v.1 + (-1) * v.2, 1 * v.1 + 0 * v.2)

/-- Source `third(a, b)`: the five vertices
`[x, (2/3)x+(1/3)y, (x+y)/2 + (sqrt(3)/6)*R.dot(y-x), (1/3)x+(2/3)y, y]`. -/
def third (a b : Pt) : List Pt :=
  [a,
   ((2 : ℝ)/3) • a + ((1 : ℝ)/3) • b,
   ((1 : ℝ)/2) • (a + b) + (Real.sqrt 3 / 6) • R_dot (b - a),
   ((1 : ℝ)/3) • a + ((2 : ℝ)/3) • b,
   b]

/-- Source `conver(L)`: the x-coordinates and the y-coordinates of the
points of `L`, in order. -/
def conver (L : List Pt) : List ℝ × List ℝ := (L.map Prod.fst, L.map Prod.snd)

/-- The inner loop of `koch` / `flake`: for each consecutive pair of points,
take `third` of the pair with its last point deleted (`del t[-1]`), and
concatenate the groups in order (`K = K + t`). -/
def groups : List Pt → List Pt
  | a :: b :: rest => (third a b).dropLast ++ groups (b :: rest)
  | _ => []

/-- One generation pass: the concatenated groups followed by the hard-coded
closing point `c` (`K.append([3,0])` resp. `K.append([0,0])`). -/
def onePass (c : Pt) (L : List Pt) : List Pt := groups L ++ [c]

/-- The generation loop `for i in range(0, n)` shared by `koch` and `flake`:
apply `onePass c` to the base polyline `n` times. -/
def buildIter (c : Pt) (base : List Pt) : ℕ → List Pt
  | 0 => base
  | n + 1 => onePass c (buildIter c base n)

/-- Base polyline of `koch`: `[[0,0],[3,0]]`. -/
def kochBase : List Pt := [((0 : ℝ), (0 : ℝ)), ((3 : ℝ), (0 : ℝ))]

/-- Base polyline of `flake`: `[[0,0],[3,0],[1.5,-3*sqrt(3)/2],[0,0]]`. -/
def flakeBase : List Pt :=
  [((0 : ℝ), (0 : ℝ)), ((3 : ℝ), (0 : ℝ)),
   ((3/2 : ℝ), -3 * Real.sqrt 3 / 2), ((0 : ℝ), (0 : ℝ))]

/-- Source `koch(n)`: the polyline handed to the plotting collaborator after
`n` generations (`range(0, n)` is empty for `n ≤ 0`). -/
def koch (n : ℤ) : List Pt := buildIter ((3 : ℝ), (0 : ℝ)) kochBase n.toNat

/-- Source `flake(n)`: the polyline handed to the plotting collaborator after
`n` generations. -/
def flake (n : ℤ) : List Pt := buildIter ((0 : ℝ), (0 : ℝ)) flakeBase n.toNat

/-! Claim-side vocabulary: the spec's 90°-counterclockwise rotation, the
Euclidean norm and the dot product used to state the geometric claims,
and the spec's description of one pass as "the first four points of each
subdivision, then the closing point". -/

/-- The spec's rotation: `(dx, dy) ↦ (-dy, dx)`. -/
def rotCCW (d : Pt) : Pt := (-d.2, d.1)

/-- Euclidean norm of a 2D vector. -/
def norm2 (v : Pt) : ℝ := Real.sqrt (v.1 ^ 2 + v.2 ^ 2)

/-- Dot product of two 2D vectors. -/
def dot2 (u v : Pt) : ℝ := u.1 * v.1 + u.2 * v.2

/-- The spec's description of one pass over a polyline `P`: for each
consecutive pair `(P[k], P[k+1])` the first four points of
`subdivide(P[k], P[k+1])`. -/
def groupsSpec (P : List Pt) : List Pt :=
  (P.zip P.tail).flatMap fun q => (third q.1 q.2).take 4

/-- Claim C1: for all 2D points `a`, `b`, `third` returns exactly the five
points `[a, (2/3)a+(1/3)b, (a+b)/2 + (sqrt 3/6)·rot(b-a), (1/3)a+(2/3)b, b]`
where `rot (dx,dy) = (-dy,dx)`; in particular
`third (0,0) (1,0) = [(0,0), (1/3,0), (1/2, sqrt 3/6), (2/3,0), (1,0)]`. -/
theorem third_is_koch_subdivide :
    (∀ a b : Pt, third a b =
      [a, ((2 : ℝ)/3) • a + ((1 : ℝ)/3) • b,
       ((1 : ℝ)/2) • (a + b) + (Real.sqrt 3 / 6) • rotCCW (b - a),
       ((1 : ℝ)/3) • a + ((2 : ℝ)/3) • b, b]) ∧
    third ((0 : ℝ), (0 : ℝ)) ((1 : ℝ), (0 : ℝ)) =
      [((0 : ℝ), (0 : ℝ)), ((1/3 : ℝ), (0 : ℝ)),
       ((1/2 : ℝ), Real.sqrt 3 / 6), ((2/3 : ℝ), (0 : ℝ)),
       ((1 : ℝ), (0 : ℝ))] := by
  constructor
  · intro a b
    have h : R_dot (b - a) = rotCCW (b - a) := by
      unfold R_dot rotCCW
      rw [Prod.mk.injEq]
      constructor <;> ring
    rw [third, h]
  · norm_num [third, R_dot, Prod.smul_mk, Prod.mk_add_mk, Prod.mk_sub_mk,
      smul_eq_mul]

/-- Claim C7: at generation 0, `koch` and `flake` return their base
polylines unchanged. -/
theorem generation_zero_is_base :
    koch 0 = [((0 : ℝ), (0 : ℝ)), ((3 : ℝ), (0 : ℝ))] ∧
    flake 0 = [((0 : ℝ), (0 : ℝ)), ((3 : ℝ), (0 : ℝ)),
      ((3/2 : ℝ), -3 * Real.sqrt 3 / 2), ((0 : ℝ), (0 : ℝ))] := by
  constructor <;> rfl

/-! Structural lemmas about one pass and the generation loop. -/

theorem groups_cons (a b : Pt) (t : List Pt) :
    groups (a :: b :: t) = (third a b).dropLast ++ groups (b :: t) := rfl

theorem third_dropLast_length (a b : Pt) : (third a b).dropLast.length = 4 := by
  simp [third]

theorem groups_length (L : List Pt) : (groups L).length = 4 * (L.length - 1) := by
  induction L with
  | nil => rfl
  | cons a t ih =>
    cases t with
    | nil => rfl
    | cons b t' =>
      rw [groups_cons, List.length_append, third_dropLast_length, ih]
      simp only [List.length_cons]
      omega

theorem onePass_length (c : Pt) (L : List Pt) :
    (onePass c L).length = 4 * (L.length - 1) + 1 := by
  simp [onePass, groups_length]

theorem buildIter_length (c : Pt) (base : List Pt) (hb : 1 ≤ base.length)
    (n : ℕ) : (buildIter c base n).length = (base.length - 1) * 4 ^ n + 1 := by
  induction n with
  | zero =>
    simp only [buildIter, pow_zero, mul_one]
    omega
  | succ n ih =>
    have : buildIter c base (n + 1) = onePass c (buildIter c base n) := rfl
    rw [this, onePass_length, ih, Nat.add_sub_cancel, pow_succ]
    ring

theorem koch_natCast (n : ℕ) :
    koch n = buildIter ((3 : ℝ), (0 : ℝ)) kochBase n := by
  simp [koch]

theorem flake_natCast (n : ℕ) :
    flake n = buildIter ((0 : ℝ), (0 : ℝ)) flakeBase n := by
  simp [flake]

/-- Claim C3: a base with `L` segments yields exactly `L * 4 ^ n` segments
(`L * 4 ^ n + 1` points) after `n` generations; `koch n` has `4 ^ n + 1`
points and `flake n` has `3 * 4 ^ n + 1` points. -/
theorem segment_count_growth (n : ℕ) :
    (koch n).length = 4 ^ n + 1 ∧ (flake n).length = 3 * 4 ^ n + 1 ∧
    ∀ (c : Pt) (base : List Pt), 1 ≤ base.length →
      (buildIter c base n).length = (base.length - 1) * 4 ^ n + 1 := by
  refine ⟨?_, ?_, fun c base hb => buildIter_length c base hb n⟩
  · rw [koch_natCast, buildIter_length _ _ (by simp [kochBase]) n]
    simp [kochBase]
  · rw [flake_natCast, buildIter_length _ _ (by simp [flakeBase]) n]
    simp [flakeBase]

/-- Witness for C3 at a concrete base and generation count. -/
theorem segment_count_growth_witness :
    1 ≤ flakeBase.length ∧
    (buildIter ((0 : ℝ), (0 : ℝ)) flakeBase 2).length =
      (flakeBase.length - 1) * 4 ^ 2 + 1 :=
  ⟨by simp [flakeBase],
   (segment_count_growth 2).2.2 ((0 : ℝ), (0 : ℝ)) flakeBase
     (by simp [flakeBase])⟩

theorem onePass_head? (c : Pt) (L : List Pt) (h : 2 ≤ L.length) :
    (onePass c L).head? = L.head? := by
  cases L with
  | nil => simp at h
  | cons a t =>
    cases t with
    | nil => simp at h
    | cons b t' => rfl

theorem buildIter_head? (c : Pt) (base : List Pt) (hb : 2 ≤ base.length)
    (n : ℕ) : (buildIter c base n).head? = base.head? := by
  induction n with
  | zero => rfl
  | succ n ih =>
    have step : buildIter c base (n + 1) = onePass c (buildIter c base n) :=
      rfl
    have hlen : 2 ≤ (buildIter c base n).length := by
      rw [buildIter_length c base (by omega) n]
      have h4 : 1 ≤ 4 ^ n := Nat.one_le_pow _ _ (by norm_num)
      have := Nat.mul_le_mul (show 1 ≤ base.length - 1 by omega) h4
      omega
    rw [step, onePass_head? c _ hlen, ih]

theorem buildIter_getLast? (c : Pt) (base : List Pt)
    (hb : base.getLast? = some c) (n : ℕ) :
    (buildIter c base n).getLast? = some c := by
  cases n with
  | zero => exact hb
  | succ n =>
    have step : buildIter c base (n + 1) = onePass c (buildIter c base n) :=
      rfl
    rw [step, onePass, List.getLast?_concat]

/-- Claim C4: for every generation count `n ≥ 0`, the first and last points
of `koch n` are the first and last points of the base, `[0,0]` and
`[3,0]`. -/
theorem koch_endpoint_preservation (n : ℕ) :
    (koch n).head? = kochBase.head? ∧
    (koch n).getLast? = kochBase.getLast? ∧
    kochBase.head? = some ((0 : ℝ), (0 : ℝ)) ∧
    kochBase.getLast? = some ((3 : ℝ), (0 : ℝ)) := by
  have hlast : kochBase.getLast? = some ((3 : ℝ), (0 : ℝ)) := rfl
  refine ⟨?_, ?_, rfl, hlast⟩
  · rw [koch_natCast]
    exact buildIter_head? _ _ (by simp [kochBase]) n
  · rw [koch_natCast, hlast]
    exact buildIter_getLast? _ _ hlast n

/-- Claim C5: for every generation count `n ≥ 0`, `flake n` is closed:
its first and last points both equal the base's starting point `[0,0]`. -/
theorem flake_closure (n : ℕ) :
    (flake n).head? = some ((0 : ℝ), (0 : ℝ)) ∧
    (flake n).getLast? = some ((0 : ℝ), (0 : ℝ)) := by
  constructor
  · rw [flake_natCast]
    exact buildIter_head? _ _ (by simp [flakeBase]) n
  · rw [flake_natCast]
    exact buildIter_getLast? _ _
      (show flakeBase.getLast? = some ((0 : ℝ), (0 : ℝ)) from rfl) n

/-- Counterexample to C6 as stated: at the negative generation count `-1`
neither `koch` nor `flake` signals a domain error — both run zero passes
(`range(0, n)` is empty) and return the base polyline. -/
theorem negative_generation_no_error :
    koch (-1) = [((0 : ℝ), (0 : ℝ)), ((3 : ℝ), (0 : ℝ))] ∧
    flake (-1) = [((0 : ℝ), (0 : ℝ)), ((3 : ℝ), (0 : ℝ)),
      ((3/2 : ℝ), -3 * Real.sqrt 3 / 2), ((0 : ℝ), (0 : ℝ))] :=
  ⟨rfl, rfl⟩

/-- Amended C6: for every negative generation count `n`, `koch` and `flake`
silently treat the input as a no-op, performing zero subdivision passes and
producing the base polyline (no domain error is raised). -/
theorem negative_generation_noop (n : ℤ) (h : n < 0) :
    koch n = kochBase ∧ flake n = flakeBase := by
  have h0 : n.toNat = 0 := Int.toNat_eq_zero.mpr (le_of_lt h)
  constructor
  · rw [koch, h0]
    rfl
  · rw [flake, h0]
    rfl

/-- Witness for the amended C6 at `n = -2`. -/
theorem negative_generation_noop_witness :
    (-2 : ℤ) < 0 ∧ koch (-2) = kochBase ∧ flake (-2) = flakeBase :=
  ⟨by norm_num, (negative_generation_noop (-2) (by norm_num)).1,
   (negative_generation_noop (-2) (by norm_num)).2⟩

theorem third_take_eq_dropLast (a b : Pt) :
    (third a b).take 4 = (third a b).dropLast := rfl

theorem groupsSpec_cons (a b : Pt) (t : List Pt) :
    groupsSpec (a :: b :: t) = (third a b).take 4 ++ groupsSpec (b :: t) := rfl

theorem groups_eq_groupsSpec (L : List Pt) : groups L = groupsSpec L := by
  induction L with
  | nil => rfl
  | cons a t ih =>
    cases t with
    | nil => rfl
    | cons b t' => rw [groups_cons, groupsSpec_cons, ih, third_take_eq_dropLast]

/-- Claim C2: one generation pass produces, for each consecutive pair of
points, the first four points of their subdivision, concatenated in order
and followed by the single closing point; in particular one pass over
`[[0,0],[3,0]]` yields `[0,0],[1,0],[1.5,sqrt(3)/2],[2,0],[3,0]`. -/
theorem onePass_is_spec_groups :
    (∀ (c : Pt) (P : List Pt), 2 ≤ P.length →
      onePass c P = groupsSpec P ++ [c]) ∧
    koch 1 = [((0 : ℝ), (0 : ℝ)), ((1 : ℝ), (0 : ℝ)),
      ((3/2 : ℝ), Real.sqrt 3 / 2), ((2 : ℝ), (0 : ℝ)),
      ((3 : ℝ), (0 : ℝ))] := by
  constructor
  · intro c P _
    rw [onePass, groups_eq_groupsSpec]
  · have step : koch 1 = onePass ((3 : ℝ), (0 : ℝ)) kochBase := rfl
    have grp : groups kochBase =
        (third ((0 : ℝ), (0 : ℝ)) ((3 : ℝ), (0 : ℝ))).dropLast := by
      rw [kochBase, groups_cons]
      simp [groups]
    rw [step, onePass, grp]
    norm_num [third, R_dot, Prod.smul_mk, Prod.mk_add_mk, Prod.mk_sub_mk,
      smul_eq_mul]
    ring

/-- Witness for C2 at the concrete base polyline of `koch`. -/
theorem onePass_is_spec_groups_witness :
    2 ≤ kochBase.length ∧
    onePass ((3 : ℝ), (0 : ℝ)) kochBase =
      groupsSpec kochBase ++ [((3 : ℝ), (0 : ℝ))] :=
  ⟨by simp [kochBase],
   onePass_is_spec_groups.1 ((3 : ℝ), (0 : ℝ)) kochBase (by simp [kochBase])⟩

theorem groups_getElem? (L : List Pt) (i : ℕ) (h : i + 1 < L.length) :
    (groups L)[4 * i]? = L[i]? := by
  induction L generalizing i with
  | nil => simp at h
  | cons a t ih =>
    cases t with
    | nil => simp at h
    | cons b t' =>
      cases i with
      | zero =>
        rw [groups_cons]
        simp [third]
      | succ i' =>
        have h4 : (third a b).dropLast.length = 4 := third_dropLast_length a b
        rw [groups_cons,
          List.getElem?_append_right (by rw [h4]; omega), h4,
          show 4 * (i' + 1) - 4 = 4 * i' from by omega,
          ih i' (by simp only [List.length_cons] at h ⊢; omega)]
        simp

theorem onePass_getElem? (c : Pt) (L : List Pt)
    (hc : L.getLast? = some c) (i : ℕ) :
    (onePass c L)[4 * i]? = L[i]? := by
  have hL : 1 ≤ L.length := by
    cases L with
    | nil => simp at hc
    | cons x xs => simp
  rcases lt_trichotomy (i + 1) L.length with h | h | h
  · rw [onePass,
      List.getElem?_append_left (show 4 * i < (groups L).length by
        rw [groups_length]; omega),
      groups_getElem? L i h]
  · rw [onePass,
      List.getElem?_append_right (show (groups L).length ≤ 4 * i by
        rw [groups_length]; omega),
      groups_length, show 4 * i - 4 * (L.length - 1) = 0 from by omega]
    have hlast : L[i]? = L.getLast? := by
      rw [List.getLast?_eq_getElem?]
      congr 1
      omega
    rw [hlast, hc]
    rfl
  · rw [List.getElem?_eq_none (show L.length ≤ i by omega),
      List.getElem?_eq_none (show (onePass c L).length ≤ 4 * i by
        rw [onePass_length]; omega)]

/-- Claim C10: successive generations refine each other: the point at
index `i` of generation `n` of `koch` (resp. `flake`) appears at index
`4 * i` of generation `n + 1`; out-of-range indices are `none` on both
sides. -/
theorem successive_generations_refine (n i : ℕ) :
    (koch (n + 1))[4 * i]? = (koch n)[i]? ∧
    (flake (n + 1))[4 * i]? = (flake n)[i]? := by
  have hk : ((n : ℤ) + 1) = ((n + 1 : ℕ) : ℤ) := by push_cast; ring
  constructor
  · rw [hk, koch_natCast (n + 1), koch_natCast n]
    exact onePass_getElem? _ _
      (buildIter_getLast? _ _
        (show kochBase.getLast? = some ((3 : ℝ), (0 : ℝ)) from rfl) n) i
  · rw [hk, flake_natCast (n + 1), flake_natCast n]
    exact onePass_getElem? _ _
      (buildIter_getLast? _ _
        (show flakeBase.getLast? = some ((0 : ℝ), (0 : ℝ)) from rfl) n) i

/-- Claim C9: `conver` returns two sequences of the same length as the
polyline, whose `i`-th entries are the `i`-th point's x- and y-coordinate,
preserving order and transforming no value. -/
theorem conver_extracts_coordinates (L : List Pt) :
    (conver L).1.length = L.length ∧ (conver L).2.length = L.length ∧
    ∀ i : ℕ, (conver L).1[i]? = L[i]?.map Prod.fst ∧
      (conver L).2[i]? = L[i]?.map Prod.snd := by
  refine ⟨by simp [conver], by simp [conver], fun i => ⟨?_, ?_⟩⟩ <;>
    simp [conver]

theorem sqrt_eq_of_sq_eq (x y : ℝ) (hy : 0 ≤ y) (h : y ^ 2 = x) :
    Real.sqrt x = y := by
  rw [← h]
  exact Real.sqrt_sq hy

/-- Claim C8: in the output `[p0,p1,p2,p3,p4]` of `third a b`, the apex
`p2` is displaced from the segment midpoint perpendicularly to `b - a`
with magnitude `|b-a| * sqrt 3 / 6`, and the four segments `p0p1`, `p1p2`,
`p2p3`, `p3p4` all have length `|b-a| / 3`. -/
theorem third_self_similarity (a b p0 p1 p2 p3 p4 : Pt)
    (h : third a b = [p0, p1, p2, p3, p4]) :
    dot2 (p2 - ((1 : ℝ)/2) • (a + b)) (b - a) = 0 ∧
    norm2 (p2 - ((1 : ℝ)/2) • (a + b)) = norm2 (b - a) * Real.sqrt 3 / 6 ∧
    norm2 (p1 - p0) = norm2 (b - a) / 3 ∧
    norm2 (p2 - p1) = norm2 (b - a) / 3 ∧
    norm2 (p3 - p2) = norm2 (b - a) / 3 ∧
    norm2 (p4 - p3) = norm2 (b - a) / 3 := by
  obtain ⟨a1, a2⟩ := a
  obtain ⟨b1, b2⟩ := b
  rw [third] at h
  simp only [List.cons.injEq, and_true] at h
  obtain ⟨h0, h1, h2, h3, h4⟩ := h
  subst h0 h1 h2 h3 h4
  have hs : Real.sqrt 3 ^ 2 = 3 := Real.sq_sqrt (by norm_num)
  have hs0 : (0 : ℝ) ≤ Real.sqrt 3 := Real.sqrt_nonneg 3
  have hD0 : (0 : ℝ) ≤ (b1 - a1) ^ 2 + (b2 - a2) ^ 2 := by positivity
  have hN2 : Real.sqrt ((b1 - a1) ^ 2 + (b2 - a2) ^ 2) ^ 2 =
      (b1 - a1) ^ 2 + (b2 - a2) ^ 2 := Real.sq_sqrt hD0
  have hN0 : (0 : ℝ) ≤ Real.sqrt ((b1 - a1) ^ 2 + (b2 - a2) ^ 2) :=
    Real.sqrt_nonneg _
  have hnorm : norm2 ((b1, b2) - (a1, a2)) =
      Real.sqrt ((b1 - a1) ^ 2 + (b2 - a2) ^ 2) := rfl
  refine ⟨?_, ?_, ?_, ?_, ?_, ?_⟩
  · simp only [dot2, R_dot, Prod.smul_mk, Prod.mk_add_mk, Prod.mk_sub_mk,
      smul_eq_mul]
    ring
  · simp only [norm2, R_dot, Prod.smul_mk, Prod.mk_add_mk, Prod.mk_sub_mk,
      smul_eq_mul, hnorm]
    exact sqrt_eq_of_sq_eq _ _
      (by positivity)
      (by linear_combination (Real.sqrt 3 ^ 2 / 36) * hN2)
  · simp only [norm2, R_dot, Prod.smul_mk, Prod.mk_add_mk, Prod.mk_sub_mk,
      smul_eq_mul, hnorm]
    exact sqrt_eq_of_sq_eq _ _ (by positivity)
      (by linear_combination (1/9 : ℝ) * hN2)
  · simp only [norm2, R_dot, Prod.smul_mk, Prod.mk_add_mk, Prod.mk_sub_mk,
      smul_eq_mul, hnorm]
    exact sqrt_eq_of_sq_eq _ _ (by positivity)
      (by linear_combination (1/9 : ℝ) * hN2 -
        (((b1 - a1) ^ 2 + (b2 - a2) ^ 2) / 36) * hs)
  · simp only [norm2, R_dot, Prod.smul_mk, Prod.mk_add_mk, Prod.mk_sub_mk,
      smul_eq_mul, hnorm]
    exact sqrt_eq_of_sq_eq _ _ (by positivity)
      (by linear_combination (1/9 : ℝ) * hN2 -
        (((b1 - a1) ^ 2 + (b2 - a2) ^ 2) / 36) * hs)
  · simp only [norm2, R_dot, Prod.smul_mk, Prod.mk_add_mk, Prod.mk_sub_mk,
      smul_eq_mul, hnorm]
    exact sqrt_eq_of_sq_eq _ _ (by positivity)
      (by linear_combination (1/9 : ℝ) * hN2)

/-- Witness for C8 at the concrete segment from `(0,0)` to `(1,0)`. -/
theorem third_self_similarity_witness :
    third ((0 : ℝ), (0 : ℝ)) ((1 : ℝ), (0 : ℝ)) =
      [((0 : ℝ), (0 : ℝ)), ((1/3 : ℝ), (0 : ℝ)),
       ((1/2 : ℝ), Real.sqrt 3 / 6), ((2/3 : ℝ), (0 : ℝ)),
       ((1 : ℝ), (0 : ℝ))] ∧
    (dot2 (((1/2 : ℝ), Real.sqrt 3 / 6) -
        ((1 : ℝ)/2) • (((0 : ℝ), (0 : ℝ)) + ((1 : ℝ), (0 : ℝ))))
      (((1 : ℝ), (0 : ℝ)) - ((0 : ℝ), (0 : ℝ))) = 0 ∧
     norm2 (((1/2 : ℝ), Real.sqrt 3 / 6) -
        ((1 : ℝ)/2) • (((0 : ℝ), (0 : ℝ)) + ((1 : ℝ), (0 : ℝ)))) =
       norm2 (((1 : ℝ), (0 : ℝ)) - ((0 : ℝ), (0 : ℝ))) * Real.sqrt 3 / 6 ∧
     norm2 (((1/3 : ℝ), (0 : ℝ)) - ((0 : ℝ), (0 : ℝ))) =
       norm2 (((1 : ℝ), (0 : ℝ)) - ((0 : ℝ), (0 : ℝ))) / 3 ∧
     norm2 (((1/2 : ℝ), Real.sqrt 3 / 6) - ((1/3 : ℝ), (0 : ℝ))) =
       norm2 (((1 : ℝ), (0 : ℝ)) - ((0 : ℝ), (0 : ℝ))) / 3 ∧
     norm2 (((2/3 : ℝ), (0 : ℝ)) - ((1/2 : ℝ), Real.sqrt 3 / 6)) =
       norm2 (((1 : ℝ), (0 : ℝ)) - ((0 : ℝ), (0 : ℝ))) / 3 ∧
     norm2 (((1 : ℝ), (0 : ℝ)) - ((2/3 : ℝ), (0 : ℝ))) =
       norm2 (((1 : ℝ), (0 : ℝ)) - ((0 : ℝ), (0 : ℝ))) / 3) := by
  have h : third ((0 : ℝ), (0 : ℝ)) ((1 : ℝ), (0 : ℝ)) =
      [((0 : ℝ), (0 : ℝ)), ((1/3 : ℝ), (0 : ℝ)),
       ((1/2 : ℝ), Real.sqrt 3 / 6), ((2/3 : ℝ), (0 : ℝ)),
       ((1 : ℝ), (0 : ℝ))] := by
    norm_num [third, R_dot, Prod.smul_mk, Prod.mk_add_mk, Prod.mk_sub_mk,
      smul_eq_mul]
  exact ⟨h, third_self_similarity _ _ _ _ _ _ _ h⟩
